import Mathlib

/-!
Verification development for the web-cana-vision repository.

The repository ships the React/TypeScript web client (pages, `lib/api-client.ts`,
services) of a satellite-scene processing platform.  The processing core
(JobManager, WorkflowOrchestrator, ArtifactCache, BandExtractor, IndexEngine)
is described by the specification and by the client code that consumes it, but
its implementation is not part of the repository sources; those components are
modelled here from the specification, as marked on each definition.  The
client-side definitions are direct translations of the TypeScript sources
(`src/web/src/lib/api-client.ts`, `src/web/src/pages/Analises.tsx` and its
newer revision shipped in the repository).
-/

/- ================= Job lifecycle (JobManager) ================== -/

/-- Job status values, exactly the `JobStatusValue` union of the client
(`"pending" | "running" | "succeeded" | "failed"`). -/
inductive JobStatusValue where
  | pending
  | running
  | succeeded
  | failed
deriving DecidableEq, Repr

/-- A status is terminal when it is `succeeded` or `failed`. -/
def JobStatusValue.isTerminal : JobStatusValue → Bool
  | .succeeded => true
  | .failed => true
  | _ => false

/-- A status is active when it is `pending` or `running`; this mirrors the
client expression `jobStatus === "pending" || jobStatus === "running"`. -/
def JobStatusValue.isActive : JobStatusValue → Bool
  | .pending => true
  | .running => true
  | _ => false

/-- Modelled from the spec: the JobManager implementation is not among the
repository sources, so its per-Job state machine
`Pending → Running → {Succeeded, Failed}` is taken verbatim from the
specification: the only transitions are starting a pending job and finishing
a running job with success or failure. -/
inductive JobStep : JobStatusValue → JobStatusValue → Prop where
  | start : JobStep .pending .running
  | succeed : JobStep .running .succeeded
  | fail : JobStep .running .failed

/-- Zero or more transitions of the job state machine. -/
def JobSteps : JobStatusValue → JobStatusValue → Prop :=
  Relation.ReflTransGen JobStep

/-- Client model, from `Analises.tsx`:
`const jobIsActive = jobStatus === "pending" || jobStatus === "running";`
where `jobStatus` is `JobStatusValue | null`. -/
def jobIsActive (jobStatus : Option JobStatusValue) : Bool :=
  jobStatus == some .pending || jobStatus == some .running

/-- Client model, from the polling effect of `Analises.tsx`: the interval that
polls `fetchJobStatus` is installed only when `jobId` is set and the job is
active (`if (!jobId || !jobIsActive) return;`). -/
def pollingEnabled (jobId : Option String) (jobStatus : Option JobStatusValue) : Bool :=
  jobId.isSome && jobIsActive jobStatus

theorem jobStep_not_from_terminal {s t : JobStatusValue} (h : JobStep s t) :
    s.isTerminal = false := by
  cases h <;> rfl

theorem jobSteps_terminal_fixed {s t : JobStatusValue} (hs : s.isTerminal = true)
    (h : JobSteps s t) : t = s := by
  induction h with
  | refl => rfl
  | tail _ hstep ih =>
      subst ih
      have := jobStep_not_from_terminal hstep
      rw [hs] at this
      exact absurd this (by simp)

/-- C1: job states only move along `Pending → Running → {Succeeded, Failed}`:
no transition leaves a terminal state, a terminal job never becomes pending or
running again, and in the client a job whose status is succeeded or failed is
not active, so the polling interval for it is not installed. -/
theorem jobLifecycle_terminal_is_final :
    (∀ s t : JobStatusValue, JobStep s t → s.isTerminal = false) ∧
    (∀ s t : JobStatusValue, s.isTerminal = true → JobSteps s t → t = s) ∧
    (∀ (jobId : Option String) (s : JobStatusValue),
      s = .succeeded ∨ s = .failed → pollingEnabled jobId (some s) = false) := by
  refine ⟨fun s t h => jobStep_not_from_terminal h,
    fun s t hs h => jobSteps_terminal_fixed hs h, fun jobId s hs => ?_⟩
  rcases hs with h | h <;> subst h <;> simp [pollingEnabled, jobIsActive]

/-- Witness for C1 at concrete inputs: the pending→running step starts from a
non-terminal state, a succeeded job reached by zero steps stays succeeded, and
polling is disabled for a failed job with id "j1". -/
theorem jobLifecycle_terminal_is_final_witness :
    JobStatusValue.pending.isTerminal = false ∧
    JobStatusValue.succeeded = JobStatusValue.succeeded ∧
    pollingEnabled (some "j1") (some .failed) = false :=
  ⟨jobLifecycle_terminal_is_final.1 .pending .running JobStep.start,
   jobLifecycle_terminal_is_final.2.1 .succeeded .succeeded rfl
     Relation.ReflTransGen.refl,
   jobLifecycle_terminal_is_final.2.2 (some "j1") .failed (Or.inr rfl)⟩

/- ================= apiFetch (src/web/src/lib/api-client.ts) ================== -/

/-- Model of the relevant fields of a parsed JSON body: the only fields
`apiFetch` inspects are `message` and `detail`; `none` models an absent
(undefined) field and `some ""` an empty string, which is falsy in JS. -/
structure JsBody where
  message : Option String
  detail : Option String
deriving DecidableEq, Repr

/-- Model of the `ApiError` class: message, HTTP status code and parsed body
(`none` models the JS `null` body). -/
structure ApiError where
  message : String
  status : Nat
  body : Option JsBody
deriving DecidableEq, Repr

/-- Model of an HTTP response as consumed by `apiFetch` after
`await response.text()`: `parsed` is the outcome of
`text ? safeParseJson(text) : null`, where `none` models JS `null`
(empty body, or a body `safeParseJson` could not parse). -/
structure ApiResponse where
  ok : Bool
  status : Nat
  parsed : Option JsBody
deriving DecidableEq, Repr

/-- JS `x || fallback` on a possibly-undefined string field: the field value
when present and truthy (non-empty), else the fallback. -/
def jsOrString : Option String → String → String
  | some s, fallback => if s = "" then fallback else s
  | none, fallback => fallback

/-- The message of the thrown `ApiError`, translating
`parsed?.message || parsed?.detail || "Erro ao chamar API (status)"`. -/
def apiErrorMessage (parsed : Option JsBody) (status : Nat) : String :=
  jsOrString (parsed.bind JsBody.message)
    (jsOrString (parsed.bind JsBody.detail)
      ("Erro ao chamar API (" ++ toString status ++ ")"))

/-- `apiFetch` on a received response, `skipJson` unset: throw an `ApiError`
when `response.ok` is false, otherwise return the parsed body (possibly
`null`). -/
def apiFetch (response : ApiResponse) : Except ApiError (Option JsBody) :=
  if response.ok then .ok response.parsed
  else .error ⟨apiErrorMessage response.parsed response.status,
    response.status, response.parsed⟩

/-- A JS-falsy string field: absent, or present but empty. -/
def fieldFalsy (x : Option String) : Prop := x = none ∨ x = some ""

/-- C8 counterexample: on a non-ok response whose body is
`{"message": "", "detail": "x"}` the `message` field is present (it equals
`some ""`), yet the thrown `ApiError` carries the `detail` value `"x"`,
not the body's `message` field. -/
theorem apiFetch_message_counterexample :
    apiFetch ⟨false, 500, some ⟨some "", some "x"⟩⟩ =
      .error ⟨"x", 500, some ⟨some "", some "x"⟩⟩ ∧
    (some (⟨some "", some "x"⟩ : JsBody)).bind JsBody.message = some "" ∧
    ("x" : String) ≠ "" := by
  refine ⟨rfl, rfl, by decide⟩

/-- C8 (amended): with `skipJson` unset, if `response.ok` is false `apiFetch`
throws an `ApiError` whose status equals the response status and whose message
is the body's `message` field when present and non-empty, else the `detail`
field when present and non-empty, else the generic string; if `response.ok`
is true it never throws and returns the parsed body, `null` (modelled `none`)
when the body was empty or not valid JSON. -/
theorem apiFetch_spec (r : ApiResponse) :
    (r.ok = true → apiFetch r = .ok r.parsed) ∧
    (r.ok = false → ∃ e : ApiError, apiFetch r = .error e ∧
      e.status = r.status ∧ e.body = r.parsed ∧
      (∀ m, r.parsed.bind JsBody.message = some m → m ≠ "" → e.message = m) ∧
      (fieldFalsy (r.parsed.bind JsBody.message) →
        ∀ d, r.parsed.bind JsBody.detail = some d → d ≠ "" → e.message = d) ∧
      (fieldFalsy (r.parsed.bind JsBody.message) →
        fieldFalsy (r.parsed.bind JsBody.detail) →
        e.message = "Erro ao chamar API (" ++ toString r.status ++ ")")) := by
  constructor
  · intro hok
    simp [apiFetch, hok]
  · intro hok
    refine ⟨⟨apiErrorMessage r.parsed r.status, r.status, r.parsed⟩,
      by simp [apiFetch, hok], rfl, rfl, ?_, ?_, ?_⟩
    · intro m hm hne
      simp [apiErrorMessage, hm, jsOrString, hne]
    · intro hfalsy d hd hne
      rcases hfalsy with h | h <;>
        simp [apiErrorMessage, h, hd, jsOrString, hne]
    · intro hmf hdf
      rcases hmf with h | h <;> rcases hdf with h' | h' <;>
        simp [apiErrorMessage, h, h', jsOrString]

/-- Witness for C8 at concrete responses: an ok 200 response with empty body
returns `none`, and a failed 404 response with body `{"message": "nope"}`
throws an error with status 404 and message "nope". -/
theorem apiFetch_spec_witness :
    apiFetch ⟨true, 200, none⟩ = .ok none ∧
    ∃ e : ApiError, apiFetch ⟨false, 404, some ⟨some "nope", none⟩⟩ = .error e ∧
      e.status = 404 ∧ e.body = some ⟨some "nope", none⟩ ∧
      (∀ m, (some (⟨some "nope", none⟩ : JsBody)).bind JsBody.message = some m →
        m ≠ "" → e.message = m) ∧
      (fieldFalsy ((some (⟨some "nope", none⟩ : JsBody)).bind JsBody.message) →
        ∀ d, (some (⟨some "nope", none⟩ : JsBody)).bind JsBody.detail = some d →
        d ≠ "" → e.message = d) ∧
      (fieldFalsy ((some (⟨some "nope", none⟩ : JsBody)).bind JsBody.message) →
        fieldFalsy ((some (⟨some "nope", none⟩ : JsBody)).bind JsBody.detail) →
        e.message = "Erro ao chamar API (" ++ toString (404 : Nat) ++ ")") :=
  ⟨(apiFetch_spec ⟨true, 200, none⟩).1 rfl,
   (apiFetch_spec ⟨false, 404, some ⟨some "nope", none⟩⟩).2 rfl⟩

/- ===== Auth session storage (saveAuthSession / getAuthSession) ===== -/

/-- The `AuthUser` record of `src/web/src/services/password.ts`. -/
structure AuthUser where
  id : String
  nome : String
  email : String
  role : Option String
  clienteId : Option String
deriving DecidableEq, Repr

/-- The `AuthTokens` record of `src/web/src/services/password.ts`. -/
structure AuthTokens where
  accessToken : String
  refreshToken : String
  tokenType : Option String
deriving DecidableEq, Repr

/-- The `AuthResponse` record of `src/web/src/services/password.ts`, the
session value stored by `saveAuthSession`. -/
structure AuthResponse where
  user : AuthUser
  tokens : Option AuthTokens
  provider : Option String
  requiresEmailConfirmation : Option Bool
deriving DecidableEq, Repr

/-- Model of a string stored under the auth key: `jsonOf s` is the result of
`JSON.stringify` on a session `s` (which `JSON.parse` recovers), `notJson raw`
is any stored string that `JSON.parse` rejects. -/
inductive StoredVal where
  | jsonOf (s : AuthResponse)
  | notJson (raw : String)
deriving DecidableEq, Repr

/-- `JSON.parse` on a stored string: recovers the session from its
stringified form and fails on anything that is not valid JSON. -/
def jsonParse : StoredVal → Option AuthResponse
  | .jsonOf s => some s
  | .notJson _ => none

/-- The entries under `AUTH_STORAGE_KEY` in `window.localStorage` and
`window.sessionStorage` (`none` = key absent). -/
structure WebStorage where
  localItem : Option StoredVal
  sessionItem : Option StoredVal
deriving DecidableEq, Repr

/-- `saveAuthSession(session, persist)`: `getStorage(persist)` (localStorage
when persisting, sessionStorage otherwise) receives the stringified session;
the key is removed from the other storage. -/
def saveAuthSession (session : AuthResponse) (persist : Bool)
    (st : WebStorage) : WebStorage :=
  if persist then { st with localItem := some (.jsonOf session), sessionItem := none }
  else { st with sessionItem := some (.jsonOf session), localItem := none }

/-- JS falsiness of the stored string: `getItem` yields the raw string and
`if (!raw) return null;` fires on the empty string; `JSON.stringify` of a
session object always yields a non-empty object literal, so only an empty
non-JSON entry is falsy. -/
def storedFalsy : StoredVal → Bool
  | .jsonOf _ => false
  | .notJson g => g == ""

/-- `getAuthSession()`: read `localStorage.getItem(KEY) ??
sessionStorage.getItem(KEY)`; `if (!raw) return null;` returns null with
the storages untouched when the key is absent or the stored string is
empty; otherwise, when `JSON.parse` succeeds return the session, and when
it throws, remove the key from both storages and return null.  The pair is
(returned value, storages after the call). -/
def getAuthSession (st : WebStorage) : Option AuthResponse × WebStorage :=
  match st.localItem.orElse (fun _ => st.sessionItem) with
  | none => (none, st)
  | some raw =>
      if storedFalsy raw then (none, st)
      else
        match jsonParse raw with
        | some s => (some s, st)
        | none => (none, ⟨none, none⟩)

/-- C9 counterexample: with the empty string stored under the auth key in
localStorage — an entry that is not valid JSON (`JSON.parse("")` throws) —
`getAuthSession` hits the `if (!raw) return null;` guard and returns null
with both storages left untouched: the key is not removed from either
storage, refuting the claim's removal clause at this input. -/
theorem getAuthSession_empty_counterexample :
    jsonParse (.notJson "") = none ∧
    getAuthSession ⟨some (.notJson ""), none⟩ =
      (none, ⟨some (.notJson ""), none⟩) ∧
    (⟨some (.notJson ""), none⟩ : WebStorage).localItem ≠ none :=
  ⟨rfl, rfl, by simp⟩

/-- C9 (amended): auth-session storage round-trips and stays single-homed:
after `saveAuthSession s persist` exactly one of the two storages holds the
key (the other one's entry is removed) and `getAuthSession` returns `s`;
and whenever the stored entry found is non-empty and not valid JSON,
`getAuthSession` removes the key from both storages and returns null (an
empty stored entry returns null with the storages left unchanged). -/
theorem authSession_round_trip (s : AuthResponse) (persist : Bool)
    (st : WebStorage) :
    ((saveAuthSession s persist st).localItem = some (.jsonOf s) ∧
        (saveAuthSession s persist st).sessionItem = none ∨
      (saveAuthSession s persist st).sessionItem = some (.jsonOf s) ∧
        (saveAuthSession s persist st).localItem = none) ∧
    getAuthSession (saveAuthSession s persist st) =
      (some s, saveAuthSession s persist st) ∧
    (∀ (t : WebStorage) (g : String),
      t.localItem.orElse (fun _ => t.sessionItem) = some (.notJson g) →
      g ≠ "" → getAuthSession t = (none, ⟨none, none⟩)) ∧
    (∀ t : WebStorage,
      t.localItem.orElse (fun _ => t.sessionItem) = some (.notJson "") →
      getAuthSession t = (none, t)) := by
  refine ⟨?_, ?_, ?_, ?_⟩
  · cases persist <;>
      simp [saveAuthSession]
  · cases persist <;>
      simp [saveAuthSession, getAuthSession, storedFalsy, jsonParse,
        Option.orElse]
  · intro t g h hg
    simp [getAuthSession, h, storedFalsy, jsonParse, hg]
  · intro t h
    simp [getAuthSession, h, storedFalsy]

/-- Witness for C9 at a concrete session and storages: saving user "u1"
persistently over a storage whose session slot held garbage, then reading it
back; reading a storage whose local slot holds non-empty garbage (purged);
and reading one whose local slot holds the empty string (left unchanged). -/
theorem authSession_round_trip_witness :
    ((saveAuthSession ⟨⟨"u1", "Ana", "a@x", none, none⟩, none, none, none⟩
          true ⟨none, some (.notJson "oops")⟩).localItem =
        some (.jsonOf ⟨⟨"u1", "Ana", "a@x", none, none⟩, none, none, none⟩) ∧
        (saveAuthSession ⟨⟨"u1", "Ana", "a@x", none, none⟩, none, none, none⟩
          true ⟨none, some (.notJson "oops")⟩).sessionItem = none ∨
      (saveAuthSession ⟨⟨"u1", "Ana", "a@x", none, none⟩, none, none, none⟩
          true ⟨none, some (.notJson "oops")⟩).sessionItem =
        some (.jsonOf ⟨⟨"u1", "Ana", "a@x", none, none⟩, none, none, none⟩) ∧
        (saveAuthSession ⟨⟨"u1", "Ana", "a@x", none, none⟩, none, none, none⟩
          true ⟨none, some (.notJson "oops")⟩).localItem = none) ∧
    getAuthSession (saveAuthSession
        ⟨⟨"u1", "Ana", "a@x", none, none⟩, none, none, none⟩
        true ⟨none, some (.notJson "oops")⟩) =
      (some ⟨⟨"u1", "Ana", "a@x", none, none⟩, none, none, none⟩,
        saveAuthSession ⟨⟨"u1", "Ana", "a@x", none, none⟩, none, none, none⟩
          true ⟨none, some (.notJson "oops")⟩) ∧
    getAuthSession ⟨some (.notJson "bad"), none⟩ = (none, ⟨none, none⟩) ∧
    getAuthSession ⟨some (.notJson ""), some (.jsonOf ⟨⟨"u1", "Ana", "a@x",
        none, none⟩, none, none, none⟩)⟩ =
      (none, ⟨some (.notJson ""), some (.jsonOf ⟨⟨"u1", "Ana", "a@x",
        none, none⟩, none, none, none⟩)⟩) :=
  ⟨(authSession_round_trip _ true ⟨none, some (.notJson "oops")⟩).1,
   (authSession_round_trip _ true ⟨none, some (.notJson "oops")⟩).2.1,
   (authSession_round_trip ⟨⟨"u1", "Ana", "a@x", none, none⟩, none, none, none⟩
      true ⟨none, some (.notJson "oops")⟩).2.2.1
     ⟨some (.notJson "bad"), none⟩ "bad" rfl (by decide),
   (authSession_round_trip ⟨⟨"u1", "Ana", "a@x", none, none⟩, none, none, none⟩
      true ⟨none, some (.notJson "oops")⟩).2.2.2
     ⟨some (.notJson ""), some (.jsonOf ⟨⟨"u1", "Ana", "a@x", none, none⟩,
       none, none, none⟩)⟩ rfl⟩

/- ===== handleTriggerWorkflow payload (Analises page) ===== -/

/-- The date part of the workflow payload: either `date_range: [a, b]` or a
single `date: d` field. -/
inductive DateSpec where
  | range (first second : String)
  | single (d : String)
deriving DecidableEq, Repr

/-- The body posted to `/api/jobs/run-workflow` by `handleTriggerWorkflow`. -/
structure WorkflowPayload where
  dateSpec : DateSpec
  geojson : String
  cloud : List Nat
  logLevel : String
deriving DecidableEq, Repr

/-- JS `[a, b].sort()` on two strings (lexicographic; for the ASCII
`YYYY-MM-DD` values produced by a date input this is the string order). -/
def sortPair (a b : String) : String × String :=
  if a ≤ b then (a, b) else (b, a)

/-- The payload built by `handleTriggerWorkflow` from the `startDate` and
`endDate` inputs and the memoised `defaultDate` (today): both dates entered
gives `date_range` = the sorted pair; exactly one entered gives `date` =
that date; neither gives `date` = today; always `geojson`
"dados/map.geojson", `cloud` [0, 30] and `log_level` "INFO".  JS truthiness
on the input strings: an empty string counts as not entered. -/
def triggerWorkflowPayload (startDate endDate defaultDate : String) :
    WorkflowPayload :=
  { dateSpec :=
      if startDate ≠ "" ∧ endDate ≠ "" then
        .range (sortPair startDate endDate).1 (sortPair startDate endDate).2
      else if startDate ≠ "" then .single startDate
      else if endDate ≠ "" then .single endDate
      else .single defaultDate
    geojson := "dados/map.geojson"
    cloud := [0, 30]
    logLevel := "INFO" }

/-- C10: every payload built by `handleTriggerWorkflow` carries
`cloud = [0, 30]` and `geojson = "dados/map.geojson"`; when both dates are
entered the payload carries `date_range` with the two entered dates sorted
ascending, and otherwise a single `date` field holding the entered date, or
today's date when neither is entered. -/
theorem triggerWorkflowPayload_spec (startDate endDate defaultDate : String) :
    (triggerWorkflowPayload startDate endDate defaultDate).cloud = [0, 30] ∧
    (triggerWorkflowPayload startDate endDate defaultDate).geojson =
      "dados/map.geojson" ∧
    (startDate ≠ "" → endDate ≠ "" →
      ∃ a b, (triggerWorkflowPayload startDate endDate defaultDate).dateSpec =
          .range a b ∧ a ≤ b ∧
        ((a, b) = (startDate, endDate) ∨ (a, b) = (endDate, startDate))) ∧
    (startDate = "" ∨ endDate = "" →
      (triggerWorkflowPayload startDate endDate defaultDate).dateSpec =
        .single (if startDate ≠ "" then startDate
          else if endDate ≠ "" then endDate else defaultDate)) := by
  refine ⟨rfl, rfl, ?_, ?_⟩
  · intro hs he
    refine ⟨(sortPair startDate endDate).1, (sortPair startDate endDate).2,
      by simp [triggerWorkflowPayload, hs, he], ?_, ?_⟩
    · by_cases h : startDate ≤ endDate
      · simp [sortPair, h]
      · simp [sortPair, h, le_of_not_le h]
    · by_cases h : startDate ≤ endDate <;> simp [sortPair, h]
  · intro h
    have hne : ¬(startDate ≠ "" ∧ endDate ≠ "") := by tauto
    rcases h with hs | he
    · by_cases he : endDate = "" <;>
        simp [triggerWorkflowPayload, hne, hs, he]
    · by_cases hs : startDate = "" <;>
        simp [triggerWorkflowPayload, hne, hs, he]

/-- Witness for C10 at concrete inputs: both dates entered out of order on
2024-08-20, and only the end date entered. -/
theorem triggerWorkflowPayload_spec_witness :
    (∃ a b,
      (triggerWorkflowPayload "2024-08-15" "2024-08-01" "2024-08-20").dateSpec =
        .range a b ∧ a ≤ b ∧
      ((a, b) = ("2024-08-15", "2024-08-01") ∨
        (a, b) = ("2024-08-01", "2024-08-15"))) ∧
    (triggerWorkflowPayload "" "2024-08-01" "2024-08-20").dateSpec =
      .single (if ("" : String) ≠ "" then ""
        else if ("2024-08-01" : String) ≠ "" then "2024-08-01"
        else "2024-08-20") :=
  ⟨(triggerWorkflowPayload_spec "2024-08-15" "2024-08-01" "2024-08-20").2.2.1
      (by decide) (by decide),
   (triggerWorkflowPayload_spec "" "2024-08-01" "2024-08-20").2.2.2
      (Or.inl rfl)⟩

/- ===== JobManager (modelled from the spec) ===== -/

/-- Modelled from the spec: the submission fingerprint used for idempotent
submission, the (AOI, date window, index set) triple of a run request. -/
structure Fingerprint where
  aoi : String
  dateWindow : String × String
  indexSet : List String
deriving DecidableEq, Repr

/-- Modelled from the spec: the result manifest of a succeeded run — the
band and index artifact paths handed to the external renderer/exporter. -/
structure ResultManifest where
  bandPaths : List String
  indexPaths : List String
deriving DecidableEq, Repr

/-- Modelled from the spec: a Job record of the JobManager (identifier,
requested parameters, state, ordered log lines, optional error, timestamps,
optional result manifest); the optional product mirrors the `product` field
of the client's `JobResponse`/`JobHistoryItem`. -/
structure Job where
  jobId : Nat
  fingerprint : Fingerprint
  status : JobStatusValue
  logs : List String
  product : Option String
  createdAt : Nat
  startedAt : Option Nat
  finishedAt : Option Nat
  error : Option String
  result : Option ResultManifest
deriving DecidableEq, Repr

/-- Modelled from the spec: the JobManager's process-wide registry — the job
list (most recent first), the next fresh job id and a logical clock stamping
creation and transition times. -/
structure JobManagerState where
  jobs : List Job
  nextId : Nat
  clock : Nat
deriving DecidableEq, Repr

/-- The empty registry the JobManager starts from. -/
def jmInit : JobManagerState := ⟨[], 0, 0⟩

/-- The predicate selecting the Pending/Running jobs with a fingerprint. -/
def activeFpPred (fp : Fingerprint) (j : Job) : Bool :=
  j.fingerprint == fp && j.status.isActive

/-- The existing Pending/Running job matching a submission fingerprint, if
any (the duplicate-detection query of idempotent submission). -/
def findActiveJob (fp : Fingerprint) (jobs : List Job) : Option Job :=
  jobs.find? (activeFpPred fp)

/-- Modelled from the spec: `submit(params) -> job_id` creates a Pending job
and returns its id, except that a duplicate request matching an existing
Pending/Running job's fingerprint returns that job's id instead of starting
a new run. -/
def submit (fp : Fingerprint) (st : JobManagerState) : Nat × JobManagerState :=
  match findActiveJob fp st.jobs with
  | some j => (j.jobId, st)
  | none =>
      (st.nextId,
        { jobs := { jobId := st.nextId, fingerprint := fp, status := .pending,
                    logs := [], product := none, createdAt := st.clock,
                    startedAt := none, finishedAt := none, error := none,
                    result := none } :: st.jobs,
          nextId := st.nextId + 1, clock := st.clock + 1 })

/-- Modelled from the spec: `get(job_id)` raises `NotFoundError` when the id
is unknown and otherwise returns the job snapshot (state, logs so far,
timestamps, optional error, optional result manifest). -/
def getJob (st : JobManagerState) (id : Nat) : Except String Job :=
  match st.jobs.find? (fun j => j.jobId == id) with
  | some j => .ok j
  | none => .error "NotFoundError"

/-- A Job summary as listed by the history endpoint; the fields are those of
the client's `JobHistoryItem` that the claim requires (id, status, product,
finished_at) plus the creation time that orders the history. -/
structure JobSummary where
  jobId : Nat
  status : JobStatusValue
  product : Option String
  createdAt : Nat
  finishedAt : Option Nat
deriving DecidableEq, Repr

/-- The summary of one job. -/
def jobSummary (j : Job) : JobSummary :=
  ⟨j.jobId, j.status, j.product, j.createdAt, j.finishedAt⟩

/-- Modelled from the spec: `list_history(limit)` returns at most `limit`
job summaries, most recent first (the job list is kept most recent first). -/
def listHistory (limit : Nat) (st : JobManagerState) : List JobSummary :=
  (st.jobs.take limit).map jobSummary

/-- Modelled from the spec: what the execution worker may do to the one job
it is running at time `t`: Pending→Running, stream a log line into the
job's buffer, then Succeeded with a manifest (and the produced product
name) or Failed with a redacted error message. -/
inductive JobUpdate : Nat → Job → Job → Prop where
  | start (t : Nat) (j : Job) (h : j.status = .pending) :
      JobUpdate t j { j with status := .running, startedAt := some t }
  | appendLog (t : Nat) (j : Job) (line : String) (h : j.status = .running) :
      JobUpdate t j { j with logs := j.logs ++ [line] }
  | succeed (t : Nat) (j : Job) (m : ResultManifest) (product : Option String)
      (h : j.status = .running) :
      JobUpdate t j { j with status := .succeeded, finishedAt := some t,
                             result := some m, product := product }
  | fail (t : Nat) (j : Job) (e : String) (h : j.status = .running) :
      JobUpdate t j { j with status := .failed, finishedAt := some t,
                             error := some e }

/-- Modelled from the spec: one scheduling step of the worker pool — some
job in the registry is taken one `JobUpdate` further; the clock advances. -/
inductive WorkerStep : JobManagerState → JobManagerState → Prop where
  | step (st : JobManagerState) (pre post : List Job) (j j' : Job)
      (hjobs : st.jobs = pre ++ j :: post)
      (hupd : JobUpdate st.clock j j') :
      WorkerStep st { st with jobs := pre ++ j' :: post, clock := st.clock + 1 }

/-- The JobManager states reachable from the empty registry by submissions
and worker steps. -/
inductive JMReach : JobManagerState → Prop where
  | init : JMReach jmInit
  | submit (fp : Fingerprint) (st : JobManagerState) (h : JMReach st) :
      JMReach (submit fp st).2
  | work (st st' : JobManagerState) (h : JMReach st) (hs : WorkerStep st st') :
      JMReach st'

/-- A job record is well formed: a succeeded job carries a result manifest, a
failed job carries an error, and a non-terminal job carries neither. -/
def wellFormedJob (j : Job) : Prop :=
  (j.status = .succeeded → j.result.isSome = true) ∧
  (j.status = .failed → j.error.isSome = true) ∧
  (j.status.isTerminal = false → j.result = none ∧ j.error = none)

/-- The registry invariant maintained by the JobManager: at most one active
job per fingerprint, every job well formed, the job list most recent first
with creation times below the clock, and job ids distinct and below the next
fresh id. -/
def JMInv (st : JobManagerState) : Prop :=
  (∀ fp, (st.jobs.filter (activeFpPred fp)).length ≤ 1) ∧
  (∀ j ∈ st.jobs, wellFormedJob j) ∧
  (st.jobs.map Job.createdAt).Chain' (fun a b => b < a) ∧
  (∀ j ∈ st.jobs, j.createdAt < st.clock) ∧
  (st.jobs.map Job.jobId).Nodup ∧
  (∀ j ∈ st.jobs, j.jobId < st.nextId)

theorem JobUpdate.fields {t : Nat} {j j' : Job} (h : JobUpdate t j j') :
    j'.jobId = j.jobId ∧ j'.fingerprint = j.fingerprint ∧
    j'.createdAt = j.createdAt ∧
    (j'.status.isActive = true → j.status.isActive = true) := by
  cases h <;> simp_all [JobStatusValue.isActive]

theorem JobUpdate.wf {t : Nat} {j j' : Job} (h : JobUpdate t j j')
    (hj : wellFormedJob j) : wellFormedJob j' := by
  obtain ⟨h1, h2, h3⟩ := hj
  cases h with
  | start hp =>
      refine ⟨by simp, by simp, fun _ => ?_⟩
      simpa using h3 (by simp [hp, JobStatusValue.isTerminal])
  | appendLog line hr => exact ⟨h1, h2, h3⟩
  | succeed m product hr =>
      exact ⟨by simp, by simp, by simp [JobStatusValue.isTerminal]⟩
  | fail e hr =>
      exact ⟨by simp, by simp, by simp [JobStatusValue.isTerminal]⟩

theorem length_filter_replace_le {α : Type} (p : α → Bool) (pre post : List α)
    (a a' : α) (himp : p a' = true → p a = true) :
    ((pre ++ a' :: post).filter p).length ≤
      ((pre ++ a :: post).filter p).length := by
  simp only [List.filter_append, List.length_append, List.filter_cons]
  by_cases hpa' : p a' = true
  · rw [if_pos hpa', if_pos (himp hpa')]
    simp only [List.length_cons]
    omega
  · rw [if_neg hpa']
    split <;> [skip; skip] <;> first
      | (simp only [List.length_cons]; omega)
      | omega

theorem mem_replace {α : Type} {pre post : List α} {a a' x : α}
    (hx : x ∈ pre ++ a' :: post) : x ∈ pre ++ a :: post ∨ x = a' := by
  simp only [List.mem_append, List.mem_cons] at hx ⊢
  tauto

theorem jmInv_init : JMInv jmInit := by
  refine ⟨fun fp => ?_, ?_, ?_, ?_, ?_, ?_⟩ <;> simp [jmInit]

theorem jmInv_submit (fp : Fingerprint) (st : JobManagerState)
    (h : JMInv st) : JMInv (submit fp st).2 := by
  obtain ⟨huniq, hwf, hchain, hclock, hids, hbound⟩ := h
  unfold submit
  cases hfind : findActiveJob fp st.jobs with
  | some j => exact ⟨huniq, hwf, hchain, hclock, hids, hbound⟩
  | none =>
      have hnone : ∀ x ∈ st.jobs, activeFpPred fp x = false := by
        intro x hx
        have := List.find?_eq_none.mp hfind x hx
        simpa [activeFpPred] using this
      refine ⟨?_, ?_, ?_, ?_, ?_, ?_⟩
      · intro fp'
        rw [List.filter_cons]
        split
        · rename_i hmatch
          have hfpeq : fp' = fp := by
            simp [activeFpPred, JobStatusValue.isActive] at hmatch
            simp [hmatch]
          subst hfpeq
          have : st.jobs.filter (activeFpPred fp') = [] :=
            List.filter_eq_nil_iff.mpr (fun x hx => by simp [hnone x hx])
          simp [this]
        · exact huniq fp'
      · intro x hx
        rcases List.mem_cons.mp hx with hx | hx
        · subst hx
          exact ⟨by simp, by simp, by simp⟩
        · exact hwf x hx
      · rw [List.map_cons]
        rw [List.chain'_cons']
        refine ⟨?_, hchain⟩
        intro b hb
        have hbmem : b ∈ st.jobs.map Job.createdAt := List.mem_of_mem_head? hb
        rcases List.mem_map.mp hbmem with ⟨x, hxmem, hxeq⟩
        simpa [hxeq] using hclock x hxmem
      · intro x hx
        rcases List.mem_cons.mp hx with hx | hx
        · subst hx; simp
        · exact Nat.lt_succ_of_lt (hclock x hx)
      · rw [List.map_cons]
        refine List.nodup_cons.mpr ⟨?_, hids⟩
        intro hmem
        rcases List.mem_map.mp hmem with ⟨x, hxmem, hxeq⟩
        have := hbound x hxmem
        simp at hxeq
        omega
      · intro x hx
        rcases List.mem_cons.mp hx with hx | hx
        · subst hx; simp
        · exact Nat.lt_succ_of_lt (hbound x hx)

theorem jmInv_workerStep {st st' : JobManagerState} (hs : WorkerStep st st')
    (h : JMInv st) : JMInv st' := by
  obtain ⟨huniq, hwf, hchain, hclock, hids, hbound⟩ := h
  cases hs with
  | step pre post j j' hjobs hupd =>
      obtain ⟨hid, hfp, hca, hact⟩ := hupd.fields
      have hmapca : (pre ++ j' :: post).map Job.createdAt =
          (pre ++ j :: post).map Job.createdAt := by
        simp [hca]
      have hmapid : (pre ++ j' :: post).map Job.jobId =
          (pre ++ j :: post).map Job.jobId := by
        simp [hid]
      have hjmem : j ∈ st.jobs := by
        rw [hjobs]; exact List.mem_append_right _ (List.mem_cons_self _ _)
      refine ⟨?_, ?_, ?_, ?_, ?_, ?_⟩
      · intro fp'
        calc ((pre ++ j' :: post).filter (activeFpPred fp')).length ≤
              ((pre ++ j :: post).filter (activeFpPred fp')).length := by
                refine length_filter_replace_le _ _ _ _ _ ?_
                intro hp
                simp only [activeFpPred, Bool.and_eq_true, beq_iff_eq] at hp ⊢
                exact ⟨hfp ▸ hp.1, hact hp.2⟩
          _ ≤ 1 := by rw [← hjobs]; exact huniq fp'
      · intro x hx
        rcases mem_replace (a := j) hx with hx | hx
        · exact hwf x (hjobs ▸ hx)
        · subst hx; exact hupd.wf (hwf j hjmem)
      · simpa [hmapca, ← hjobs] using hchain
      · intro x hx
        rcases mem_replace (a := j) hx with hx | hx
        · exact Nat.lt_succ_of_lt (hclock x (hjobs ▸ hx))
        · subst hx; rw [hca]
          exact Nat.lt_succ_of_lt (hclock j hjmem)
      · simpa [hmapid, ← hjobs] using hids
      · intro x hx
        rcases mem_replace (a := j) hx with hx | hx
        · exact hbound x (hjobs ▸ hx)
        · subst hx; rw [hid]
          exact hbound j hjmem

theorem jmReach_inv {st : JobManagerState} (h : JMReach st) : JMInv st := by
  induction h with
  | init => exact jmInv_init
  | submit fp st _ ih => exact jmInv_submit fp st ih
  | work st st' _ hs ih => exact jmInv_workerStep hs ih

theorem jmReach_workerSteps {st st' : JobManagerState} (h : JMReach st)
    (hs : Relation.ReflTransGen WorkerStep st st') : JMReach st' := by
  induction hs with
  | refl => exact h
  | tail _ hstep ih => exact JMReach.work _ _ ih hstep

theorem workerStep_job_origin {st st' : JobManagerState} (hs : WorkerStep st st')
    {x : Job} (hx : x ∈ st'.jobs) (hact : x.status.isActive = true) :
    ∃ y ∈ st.jobs, y.jobId = x.jobId ∧ y.fingerprint = x.fingerprint ∧
      y.status.isActive = true := by
  cases hs with
  | step pre post j j' hjobs hupd =>
      obtain ⟨hid, hfp, _, hactimp⟩ := hupd.fields
      have hx' : x ∈ pre ++ j' :: post := hx
      rcases mem_replace (a := j) hx' with hmem | heq
      · exact ⟨x, by rw [hjobs]; exact hmem, rfl, rfl, hact⟩
      · subst heq
        exact ⟨j, by
            rw [hjobs]
            exact List.mem_append_right _ (List.mem_cons_self _ _),
          hid.symm, hfp.symm, hactimp hact⟩

theorem workerSteps_job_origin {st st' : JobManagerState}
    (h : Relation.ReflTransGen WorkerStep st st') :
    ∀ x : Job, x ∈ st'.jobs → x.status.isActive = true →
    ∃ y ∈ st.jobs, y.jobId = x.jobId ∧ y.fingerprint = x.fingerprint ∧
      y.status.isActive = true := by
  induction h with
  | refl => exact fun x hx hact => ⟨x, hx, rfl, rfl, hact⟩
  | tail _ hstep ih =>
      intro x hx hact
      obtain ⟨y, hy, hyid, hyfp, hyact⟩ := workerStep_job_origin hstep hx hact
      obtain ⟨z, hz, hzid, hzfp, hzact⟩ := ih y hy hyact
      exact ⟨z, hz, hzid.trans hyid, hzfp.trans hyfp, hzact⟩

theorem find?_eq_of_unique {α : Type} {p : α → Bool} {l : List α}
    (hlen : (l.filter p).length ≤ 1) {x : α} (hx : x ∈ l) (hpx : p x = true) :
    l.find? p = some x := by
  cases hfind : l.find? p with
  | none =>
      have := List.find?_eq_none.mp hfind x hx
      simp [hpx] at this
  | some y =>
      have hyp : p y = true := List.find?_some hfind
      have hymem : y ∈ l := List.mem_of_find?_eq_some hfind
      have hxf : x ∈ l.filter p := List.mem_filter.mpr ⟨hx, hpx⟩
      have hyf : y ∈ l.filter p := List.mem_filter.mpr ⟨hymem, hyp⟩
      have hxy : y = x := by
        rcases hfl : l.filter p with _ | ⟨a, rest⟩
        · rw [hfl] at hxf
          simp at hxf
        · rw [hfl] at hxf hyf hlen
          simp only [List.length_cons] at hlen
          have hrest : rest = [] := List.length_eq_zero.mp (by omega)
          subst hrest
          simp at hxf hyf
          rw [hxf, hyf]
      rw [hxy]

theorem members_eq_of_jobId_eq {jobs : List Job}
    (hids : (jobs.map Job.jobId).Nodup) {a b : Job} (ha : a ∈ jobs)
    (hb : b ∈ jobs) (hab : a.jobId = b.jobId) : a = b :=
  List.inj_on_of_nodup_map hids ha hb hab

/-- C2: idempotent submission: submitting a fingerprint yields a job id; if,
possibly after further worker activity, the job with that id is still
Pending or Running when a second submission with the identical (AOI, date
window, index set) fingerprint arrives, the second submission returns the
same job id instead of starting a new run. -/
theorem submit_idempotent (fp : Fingerprint) (st st2 : JobManagerState)
    (h : JMReach st)
    (hsteps : Relation.ReflTransGen WorkerStep (submit fp st).2 st2)
    (j : Job) (hj : j ∈ st2.jobs) (hid : j.jobId = (submit fp st).1)
    (hactive : j.status.isActive = true) :
    (submit fp st2).1 = (submit fp st).1 := by
  have hreach1 : JMReach (submit fp st).2 := JMReach.submit fp st h
  have hreach2 : JMReach st2 := jmReach_workerSteps hreach1 hsteps
  obtain ⟨huniq2, _, _, _, _, _⟩ := jmReach_inv hreach2
  obtain ⟨y, hy, hyid, hyfp, hyact⟩ := workerSteps_job_origin hsteps j hj hactive
  have hjfp : j.fingerprint = fp := by
    cases hfind : findActiveJob fp st.jobs with
    | some j0 =>
        have hsub1 : (submit fp st).1 = j0.jobId := by simp [submit, hfind]
        have hsub2 : (submit fp st).2 = st := by simp [submit, hfind]
        rw [hsub2] at hy
        have hj0mem : j0 ∈ st.jobs := List.mem_of_find?_eq_some hfind
        have hj0p : activeFpPred fp j0 = true := List.find?_some hfind
        obtain ⟨_, _, _, _, hids, _⟩ := jmReach_inv h
        have hyj0 : y = j0 :=
          members_eq_of_jobId_eq hids hy hj0mem (by rw [hyid, hid, hsub1])
        have hj0fp : j0.fingerprint = fp := by
          simp only [activeFpPred, Bool.and_eq_true, beq_iff_eq] at hj0p
          exact hj0p.1
        rw [← hyfp, hyj0, hj0fp]
    | none =>
        have hsub1 : (submit fp st).1 = st.nextId := by simp [submit, hfind]
        have hy' : y ∈ (submit fp st).2.jobs := hy
        rw [show (submit fp st).2.jobs =
            { jobId := st.nextId, fingerprint := fp, status := .pending,
              logs := [], product := none, createdAt := st.clock,
              startedAt := none, finishedAt := none, error := none,
              result := none } :: st.jobs from by simp [submit, hfind]] at hy'
        rcases List.mem_cons.mp hy' with hynew | hyold
        · rw [← hyfp, hynew]
        · obtain ⟨_, _, _, _, _, hbound⟩ := jmReach_inv h
          have hlt := hbound y hyold
          rw [hyid, hid, hsub1] at hlt
          exact absurd hlt (lt_irrefl _)
  have hfind2 : findActiveJob fp st2.jobs = some j :=
    find?_eq_of_unique (huniq2 fp) hj
      (by simp [activeFpPred, hjfp, hactive])
  have hval : (submit fp st2).1 = j.jobId := by simp [submit, hfind2]
  rw [hval, hid]

/-- Witness for C2: submitting the fingerprint (aoi, 2024-08-01..2024-08-15,
ndvi+ndwi) twice in a row on the empty registry, with the first job still
pending, returns the same job id. -/
theorem submit_idempotent_witness :
    (submit ⟨"aoi", ("2024-08-01", "2024-08-15"), ["ndvi", "ndwi"]⟩
        (submit ⟨"aoi", ("2024-08-01", "2024-08-15"), ["ndvi", "ndwi"]⟩
          jmInit).2).1 =
      (submit ⟨"aoi", ("2024-08-01", "2024-08-15"), ["ndvi", "ndwi"]⟩
        jmInit).1 :=
  submit_idempotent ⟨"aoi", ("2024-08-01", "2024-08-15"), ["ndvi", "ndwi"]⟩
    jmInit
    (submit ⟨"aoi", ("2024-08-01", "2024-08-15"), ["ndvi", "ndwi"]⟩ jmInit).2
    JMReach.init Relation.ReflTransGen.refl
    ⟨0, ⟨"aoi", ("2024-08-01", "2024-08-15"), ["ndvi", "ndwi"]⟩, .pending,
      [], none, 0, none, none, none, none⟩
    (List.mem_cons_self _ _) rfl rfl

/-- C3: for every job id, `getJob` raises NotFoundError exactly when the id
is unknown, and otherwise returns the job snapshot (status, logs so far,
timestamps, optional error, optional result) for that id, in which — on any
reachable registry — the result manifest or error is present exactly when
the status is terminal. -/
theorem getJob_spec (st : JobManagerState) (id : Nat) (h : JMReach st) :
    (getJob st id = .error "NotFoundError" ↔ ∀ j ∈ st.jobs, j.jobId ≠ id) ∧
    (∀ j : Job, getJob st id = .ok j → j ∈ st.jobs ∧ j.jobId = id ∧
      (j.status.isTerminal = true ↔
        (j.result.isSome = true ∨ j.error.isSome = true))) := by
  obtain ⟨_, hwf, _, _, _, _⟩ := jmReach_inv h
  constructor
  · constructor
    · intro herr j hjmem
      unfold getJob at herr
      cases hfind : st.jobs.find? (fun x => x.jobId == id) with
      | some y => rw [hfind] at herr; simp at herr
      | none =>
          have := List.find?_eq_none.mp hfind j hjmem
          simpa using this
    · intro hall
      unfold getJob
      cases hfind : st.jobs.find? (fun x => x.jobId == id) with
      | some y =>
          have hyp := List.find?_some hfind
          have hymem := List.mem_of_find?_eq_some hfind
          simp only [beq_iff_eq] at hyp
          exact absurd hyp (hall y hymem)
      | none => rfl
  · intro j hok
    unfold getJob at hok
    cases hfind : st.jobs.find? (fun x => x.jobId == id) with
    | none => rw [hfind] at hok; simp at hok
    | some y =>
        rw [hfind] at hok
        simp only [Except.ok.injEq] at hok
        subst hok
        have hyp := List.find?_some hfind
        have hymem := List.mem_of_find?_eq_some hfind
        simp only [beq_iff_eq] at hyp
        obtain ⟨w1, w2, w3⟩ := hwf _ hymem
        refine ⟨hymem, hyp, ?_, ?_⟩
        · intro hterm
          cases hstat : y.status with
          | succeeded => exact Or.inl (w1 hstat)
          | failed => exact Or.inr (w2 hstat)
          | pending =>
              rw [hstat] at hterm
              simp [JobStatusValue.isTerminal] at hterm
          | running =>
              rw [hstat] at hterm
              simp [JobStatusValue.isTerminal] at hterm
        · intro hor
          by_contra hterm
          have hnt : y.status.isTerminal = false := by
            cases hx : y.status.isTerminal
            · rfl
            · exact absurd hx hterm
          obtain ⟨hr, he⟩ := w3 hnt
          rcases hor with hx | hx <;> simp [hr, he] at hx

/-- Witness for C3: the registry after one submission on the empty registry,
looked up at id 0 (the submitted job) — the theorem applies with the
reachability hypothesis discharged concretely. -/
theorem getJob_spec_witness :
    (getJob (submit ⟨"aoi", ("2024-08-01", "2024-08-15"), ["ndvi"]⟩
        jmInit).2 0 = .error "NotFoundError" ↔
      ∀ j ∈ (submit ⟨"aoi", ("2024-08-01", "2024-08-15"), ["ndvi"]⟩
        jmInit).2.jobs, j.jobId ≠ 0) ∧
    (∀ j : Job, getJob (submit ⟨"aoi", ("2024-08-01", "2024-08-15"),
        ["ndvi"]⟩ jmInit).2 0 = .ok j →
      j ∈ (submit ⟨"aoi", ("2024-08-01", "2024-08-15"), ["ndvi"]⟩
        jmInit).2.jobs ∧ j.jobId = 0 ∧
      (j.status.isTerminal = true ↔
        (j.result.isSome = true ∨ j.error.isSome = true))) :=
  getJob_spec (submit ⟨"aoi", ("2024-08-01", "2024-08-15"), ["ndvi"]⟩
      jmInit).2 0
    (JMReach.submit ⟨"aoi", ("2024-08-01", "2024-08-15"), ["ndvi"]⟩ jmInit
      JMReach.init)

/-- C4: on any reachable registry, `listHistory limit` returns at most
`limit` job summaries, ordered most recent first (strictly descending
creation times), each summary carrying the underlying job's id, status,
product and finished_at. -/
theorem listHistory_spec (limit : Nat) (st : JobManagerState)
    (h : JMReach st) :
    (listHistory limit st).length ≤ limit ∧
    (listHistory limit st).Chain' (fun a b => b.createdAt < a.createdAt) ∧
    (∀ s ∈ listHistory limit st, ∃ jb ∈ st.jobs, s = jobSummary jb ∧
      s.jobId = jb.jobId ∧ s.status = jb.status ∧ s.product = jb.product ∧
      s.finishedAt = jb.finishedAt) := by
  obtain ⟨_, _, hchain, _, _, _⟩ := jmReach_inv h
  refine ⟨?_, ?_, ?_⟩
  · simp [listHistory]
  · have h1 : st.jobs.Chain'
        (fun a b => Job.createdAt b < Job.createdAt a) :=
      (List.chain'_map Job.createdAt).mp hchain
    unfold listHistory
    exact (List.chain'_map jobSummary).mpr (h1.take limit)
  · intro s hs
    unfold listHistory at hs
    rcases List.mem_map.mp hs with ⟨jb, hjbmem, hjbeq⟩
    subst hjbeq
    exact ⟨jb, List.mem_of_mem_take hjbmem, rfl, rfl, rfl, rfl, rfl⟩

/-- Witness for C4: the registry after one submission on the empty registry,
listed with limit 15 (the limit the client requests) — the theorem applies
with the reachability hypothesis discharged concretely. -/
theorem listHistory_spec_witness :
    (listHistory 15 (submit ⟨"aoi", ("2024-08-01", "2024-08-15"),
        ["ndvi", "msi"]⟩ jmInit).2).length ≤ 15 ∧
    (listHistory 15 (submit ⟨"aoi", ("2024-08-01", "2024-08-15"),
        ["ndvi", "msi"]⟩ jmInit).2).Chain'
      (fun a b => b.createdAt < a.createdAt) ∧
    (∀ s ∈ listHistory 15 (submit ⟨"aoi", ("2024-08-01", "2024-08-15"),
        ["ndvi", "msi"]⟩ jmInit).2,
      ∃ jb ∈ (submit ⟨"aoi", ("2024-08-01", "2024-08-15"),
        ["ndvi", "msi"]⟩ jmInit).2.jobs, s = jobSummary jb ∧
        s.jobId = jb.jobId ∧ s.status = jb.status ∧ s.product = jb.product ∧
        s.finishedAt = jb.finishedAt) :=
  listHistory_spec 15
    (submit ⟨"aoi", ("2024-08-01", "2024-08-15"), ["ndvi", "msi"]⟩ jmInit).2
    (JMReach.submit ⟨"aoi", ("2024-08-01", "2024-08-15"), ["ndvi", "msi"]⟩
      jmInit JMReach.init)

/- ===== ArtifactCache single-flight (modelled from the spec) ===== -/

/-- Modelled from the spec: the phase of one caller of
`ArtifactCache.get_or_compute` on a fixed key: not yet served, currently
running the wrapped computation, or finished having obtained a value. -/
inductive CallerPhase where
  | start
  | computing
  | finishedWith (w : Nat)
deriving DecidableEq, Repr

/-- Modelled from the spec: the ArtifactCache is not among the repository
sources; the shared state for one cache key: the phase of each concurrent
caller, the stored artifact (none = miss), whether a caller currently holds
the single-flight slot, and how many times the wrapped compute function has
been invoked. -/
structure CacheSys where
  callers : List CallerPhase
  stored : Option Nat
  inFlight : Bool
  computeCount : Nat
deriving DecidableEq, Repr

/-- Modelled from the spec: one interleaved step of the single-flight
protocol, where `v` is the value produced by the wrapped compute function:
a caller that finds the artifact stored reuses it; on a miss, a caller may
begin computing only when no other caller is computing (the single-flight
slot is free) — otherwise it waits, having no enabled step; the computing
caller finishes by storing its result and releasing the slot. -/
inductive CacheStep (v : Nat) : CacheSys → CacheSys → Prop where
  | hit (pre post : List CallerPhase) (sys : CacheSys) (w : Nat)
      (hc : sys.callers = pre ++ .start :: post)
      (hstored : sys.stored = some w) :
      CacheStep v sys { sys with callers := pre ++ .finishedWith w :: post }
  | beginCompute (pre post : List CallerPhase) (sys : CacheSys)
      (hc : sys.callers = pre ++ .start :: post)
      (hstored : sys.stored = none) (hflight : sys.inFlight = false) :
      CacheStep v sys { sys with callers := pre ++ .computing :: post,
                                 inFlight := true,
                                 computeCount := sys.computeCount + 1 }
  | endCompute (pre post : List CallerPhase) (sys : CacheSys)
      (hc : sys.callers = pre ++ .computing :: post) :
      CacheStep v sys { sys with callers := pre ++ .finishedWith v :: post,
                                 stored := some v, inFlight := false }

/-- N callers about to request one cold key. -/
def cacheInit (n : Nat) : CacheSys := ⟨List.replicate n .start, none, false, 0⟩

/-- The single-flight protocol invariant for one key: caller count fixed,
the compute counter equal to (callers now computing) + (1 if stored), at
most one caller computing, the slot held exactly when a caller computes, a
computing caller implies nothing stored yet, every finished caller got the
stored value, and the store only ever holds the computed value. -/
def cacheInv (v n : Nat) (sys : CacheSys) : Prop :=
  sys.callers.length = n ∧
  sys.computeCount = sys.callers.count .computing +
    (if sys.stored.isSome then 1 else 0) ∧
  sys.callers.count .computing ≤ 1 ∧
  (sys.inFlight = true ↔ sys.callers.count .computing = 1) ∧
  (sys.callers.count .computing = 1 → sys.stored = none) ∧
  (∀ w, CallerPhase.finishedWith w ∈ sys.callers → sys.stored = some w) ∧
  (sys.stored = none ∨ sys.stored = some v)

theorem cacheInit_inv (v n : Nat) : cacheInv v n (cacheInit n) := by
  refine ⟨by simp [cacheInit], ?_, ?_, ?_, ?_, ?_, ?_⟩ <;>
    simp [cacheInit, List.count_replicate]

theorem cacheStep_inv {v n : Nat} {sys sys' : CacheSys}
    (hs : CacheStep v sys sys') (h : cacheInv v n sys) : cacheInv v n sys' := by
  obtain ⟨hlen, hcount, hle, hflight, hnone, hfin, hval⟩ := h
  cases hs with
  | hit pre post sys w hc hstored =>
      have hcc : (pre ++ CallerPhase.finishedWith w :: post).count
          CallerPhase.computing = sys.callers.count CallerPhase.computing := by
        rw [hc]
        simp [List.count_append, List.count_cons]
      refine ⟨?_, ?_, ?_, ?_, ?_, ?_, ?_⟩
      · show (pre ++ CallerPhase.finishedWith w :: post).length = n
        rw [← hlen, hc]
        simp
      · show sys.computeCount = (pre ++ CallerPhase.finishedWith w ::
            post).count CallerPhase.computing +
            (if sys.stored.isSome then 1 else 0)
        rw [hcc]
        exact hcount
      · show (pre ++ CallerPhase.finishedWith w :: post).count
            CallerPhase.computing ≤ 1
        rw [hcc]
        exact hle
      · show sys.inFlight = true ↔ (pre ++ CallerPhase.finishedWith w ::
            post).count CallerPhase.computing = 1
        rw [hcc]
        exact hflight
      · show (pre ++ CallerPhase.finishedWith w :: post).count
            CallerPhase.computing = 1 → sys.stored = none
        rw [hcc]
        exact hnone
      · intro w' hw'
        show sys.stored = some w'
        have hw'' : CallerPhase.finishedWith w' ∈
            pre ++ CallerPhase.finishedWith w :: post := hw'
        rcases mem_replace (a := CallerPhase.start) hw'' with hmem | heq
        · exact hfin w' (by rw [hc]; exact hmem)
        · rw [hstored]
          simp at heq
          rw [heq]
      · exact hval
  | beginCompute pre post sys hc hstored hflight2 =>
      have hc0 : sys.callers.count CallerPhase.computing = 0 := by
        rcases Nat.lt_or_ge (sys.callers.count CallerPhase.computing) 1
          with hx | hx
        · omega
        · have h1 : sys.callers.count CallerPhase.computing = 1 := by omega
          rw [hflight.mpr h1] at hflight2
          simp at hflight2
      have hsplit : sys.callers.count CallerPhase.computing =
          pre.count CallerPhase.computing + post.count CallerPhase.computing := by
        rw [hc]
        simp [List.count_append, List.count_cons]
      have hcc : (pre ++ CallerPhase.computing :: post).count
          CallerPhase.computing = 1 := by
        simp [List.count_append, List.count_cons]
        omega
      refine ⟨?_, ?_, ?_, ?_, ?_, ?_, ?_⟩
      · show (pre ++ CallerPhase.computing :: post).length = n
        rw [← hlen, hc]
        simp
      · show sys.computeCount + 1 = (pre ++ CallerPhase.computing ::
            post).count CallerPhase.computing +
            (if sys.stored.isSome then 1 else 0)
        rw [hcc, hcount, hc0, hstored]
        simp
      · show (pre ++ CallerPhase.computing :: post).count
            CallerPhase.computing ≤ 1
        rw [hcc]
      · show true = true ↔ (pre ++ CallerPhase.computing :: post).count
            CallerPhase.computing = 1
        rw [hcc]
        simp
      · intro _
        exact hstored
      · intro w' hw'
        have hw'' : CallerPhase.finishedWith w' ∈
            pre ++ CallerPhase.computing :: post := hw'
        rcases mem_replace (a := CallerPhase.start) hw'' with hmem | heq
        · have := hfin w' (by rw [hc]; exact hmem)
          rw [hstored] at this
          exact absurd this (by simp)
        · exact absurd heq (by simp)
      · exact Or.inl hstored
  | endCompute pre post sys hc =>
      have hsum : pre.count CallerPhase.computing +
          post.count CallerPhase.computing = 0 := by
        have : sys.callers.count CallerPhase.computing =
            pre.count CallerPhase.computing +
            post.count CallerPhase.computing + 1 := by
          rw [hc]
          simp [List.count_append, List.count_cons]
          omega
        omega
      have hone : sys.callers.count CallerPhase.computing = 1 := by
        have : sys.callers.count CallerPhase.computing =
            pre.count CallerPhase.computing +
            post.count CallerPhase.computing + 1 := by
          rw [hc]
          simp [List.count_append, List.count_cons]
          omega
        omega
      have hstored0 : sys.stored = none := hnone hone
      have hcc : (pre ++ CallerPhase.finishedWith v :: post).count
          CallerPhase.computing = 0 := by
        simp [List.count_append, List.count_cons]
        omega
      refine ⟨?_, ?_, ?_, ?_, ?_, ?_, ?_⟩
      · show (pre ++ CallerPhase.finishedWith v :: post).length = n
        rw [← hlen, hc]
        simp
      · show sys.computeCount = (pre ++ CallerPhase.finishedWith v ::
            post).count CallerPhase.computing +
            (if (some v).isSome then 1 else 0)
        rw [hcc, hcount, hone, hstored0]
        simp
      · show (pre ++ CallerPhase.finishedWith v :: post).count
            CallerPhase.computing ≤ 1
        rw [hcc]
        omega
      · show false = true ↔ (pre ++ CallerPhase.finishedWith v ::
            post).count CallerPhase.computing = 1
        rw [hcc]
        simp
      · intro hx
        rw [hcc] at hx
        simp at hx
      · intro w' hw'
        show some v = some w'
        have hw'' : CallerPhase.finishedWith w' ∈
            pre ++ CallerPhase.finishedWith v :: post := hw'
        rcases mem_replace (a := CallerPhase.computing) hw'' with hmem | heq
        · have := hfin w' (by rw [hc]; exact hmem)
          rw [hstored0] at this
          exact absurd this (by simp)
        · simp at heq
          rw [heq]
      · exact Or.inr rfl

theorem cacheReach_inv {v n : Nat} {sys : CacheSys}
    (h : Relation.ReflTransGen (CacheStep v) (cacheInit n) sys) :
    cacheInv v n sys := by
  induction h with
  | refl => exact cacheInit_inv v n
  | tail _ hstep ih => exact cacheStep_inv hstep ih

/-- C5: single-flight semantics of `ArtifactCache.get_or_compute` on one
key: along every interleaving of N concurrent callers starting from a cold
cache, the wrapped compute function runs at most once; every caller that
finished obtained the one canonical computed value, which is then the stored
artifact and accounts for exactly one compute invocation; and once all of
the N ≥ 1 callers have finished, the compute function has been invoked
exactly once. -/
theorem artifactCache_single_flight (v n : Nat) (sys : CacheSys)
    (h : Relation.ReflTransGen (CacheStep v) (cacheInit n) sys) :
    sys.computeCount ≤ 1 ∧
    (∀ w, CallerPhase.finishedWith w ∈ sys.callers →
      w = v ∧ sys.stored = some v ∧ sys.computeCount = 1) ∧
    ((∀ c ∈ sys.callers, ∃ w, c = CallerPhase.finishedWith w) → 1 ≤ n →
      sys.computeCount = 1) := by
  obtain ⟨hlen, hcount, hle, hflight, hnone, hfin, hval⟩ := cacheReach_inv h
  have hbound : sys.computeCount ≤ 1 := by
    rcases Nat.eq_zero_or_pos (sys.callers.count CallerPhase.computing)
      with h0 | h1
    · rw [hcount, h0]
      split <;> omega
    · have h1' : sys.callers.count CallerPhase.computing = 1 := by omega
      rw [hcount, h1', hnone h1']
      simp
  have hfinished : ∀ w, CallerPhase.finishedWith w ∈ sys.callers →
      w = v ∧ sys.stored = some v ∧ sys.computeCount = 1 := by
    intro w hw
    have hs := hfin w hw
    have hwv : w = v := by
      rcases hval with hx | hx
      · rw [hx] at hs
        exact absurd hs (by simp)
      · rw [hx] at hs
        have := Option.some.inj hs
        omega
    have hsv : sys.stored = some v := by rw [← hwv]; exact hs
    have hsome : sys.stored.isSome = true := by rw [hsv]; rfl
    have hc1 : sys.computeCount =
        sys.callers.count CallerPhase.computing + 1 := by
      rw [hcount, hsome]
      simp
    exact ⟨hwv, hsv, by omega⟩
  refine ⟨hbound, hfinished, ?_⟩
  intro hall hn
  cases hcallers : sys.callers with
  | nil =>
      rw [hcallers] at hlen
      simp at hlen
      omega
  | cons c rest =>
      have hc : c ∈ sys.callers := by
        rw [hcallers]
        exact List.mem_cons_self _ _
      obtain ⟨w, hw⟩ := hall c hc
      rw [hw] at hc
      exact (hfinished w hc).2.2

/-- Witness for C5: two callers on a cold key whose computation yields 7 —
the first begins computing, finishes, and the second hits the stored
artifact; the compute function ran exactly once and both callers hold 7. -/
theorem artifactCache_single_flight_witness :
    (⟨[CallerPhase.finishedWith 7, CallerPhase.finishedWith 7], some 7,
        false, 1⟩ : CacheSys).computeCount ≤ 1 ∧
    (∀ w, CallerPhase.finishedWith w ∈
        (⟨[CallerPhase.finishedWith 7, CallerPhase.finishedWith 7], some 7,
          false, 1⟩ : CacheSys).callers →
      w = 7 ∧ (⟨[CallerPhase.finishedWith 7, CallerPhase.finishedWith 7],
        some 7, false, 1⟩ : CacheSys).stored = some 7 ∧
      (⟨[CallerPhase.finishedWith 7, CallerPhase.finishedWith 7], some 7,
        false, 1⟩ : CacheSys).computeCount = 1) ∧
    ((∀ c ∈ (⟨[CallerPhase.finishedWith 7, CallerPhase.finishedWith 7],
        some 7, false, 1⟩ : CacheSys).callers,
      ∃ w, c = CallerPhase.finishedWith w) → 1 ≤ 2 →
      (⟨[CallerPhase.finishedWith 7, CallerPhase.finishedWith 7], some 7,
        false, 1⟩ : CacheSys).computeCount = 1) :=
  artifactCache_single_flight 7 2
    ⟨[CallerPhase.finishedWith 7, CallerPhase.finishedWith 7], some 7,
      false, 1⟩
    (Relation.ReflTransGen.head
      (CacheStep.beginCompute [] [.start] (cacheInit 2) rfl rfl rfl)
      (Relation.ReflTransGen.head
        (CacheStep.endCompute [] [.start]
          ⟨[.computing, .start], none, true, 1⟩ rfl)
        (Relation.ReflTransGen.head
          (CacheStep.hit [.finishedWith 7] []
            ⟨[.finishedWith 7, .start], some 7, false, 1⟩ 7 rfl rfl)
          Relation.ReflTransGen.refl)))

/- ===== BandExtractor (modelled from the spec) ===== -/

/-- The band names of the data model
(blue, green, red, rededge1..4, nir, swir1, swir2). -/
inductive BandName where
  | blue
  | green
  | red
  | rededge1
  | rededge2
  | rededge3
  | rededge4
  | nir
  | swir1
  | swir2
deriving DecidableEq, Repr

/-- All band names, in the data-model order. -/
def bandList : List BandName :=
  [.blue, .green, .red, .rededge1, .rededge2, .rededge3, .rededge4,
   .nir, .swir1, .swir2]

/-- A raster grid: width, height, resolution and coordinate reference
system. -/
structure Grid where
  width : Nat
  height : Nat
  resolution : Nat
  crs : String
deriving DecidableEq, Repr

/-- A raster artifact: the grid it lies on and its file path. -/
structure Raster where
  grid : Grid
  path : String
deriving DecidableEq, Repr

/-- Modelled from the spec: a raw band located inside a product, at its
native resolution, before reprojection. -/
structure NativeBand where
  nativeResolution : Nat
  path : String
deriving DecidableEq, Repr

/-- Modelled from the spec: a resolved Scene handle — product id, native
coordinate system, pixel extent, and the raw bands actually present in the
product (some may be missing). -/
structure Scene where
  sceneId : String
  nativeCrs : String
  extentWidth : Nat
  extentHeight : Nat
  rawBands : List (BandName × NativeBand)
deriving DecidableEq, Repr

/-- The raw band stored in a product for a band name, if present. -/
def lookupBand (bands : List (BandName × NativeBand)) (b : BandName) :
    Option NativeBand :=
  (bands.find? (fun p => p.1 == b)).map Prod.snd

/-- Modelled from the spec: the reference grid of a scene, defined by the
NIR band's native resolution and the product's native coordinate system. -/
def referenceGrid (scene : Scene) (nir : NativeBand) : Grid :=
  ⟨scene.extentWidth, scene.extentHeight, nir.nativeResolution,
   scene.nativeCrs⟩

/-- Modelled from the spec: reproject/resample one raw band onto the
reference grid (bands natively coarser are resampled up) and convert to
reflectance; the output raster lies on the reference grid. -/
def reprojectToGrid (g : Grid) (band : NativeBand) : Raster :=
  ⟨g, band.path⟩

/-- A BandSet: the mapping from band names to co-registered rasters; it may
lack some bands without violating the grid invariant for those present. -/
abbrev BandSet := List (BandName × Raster)

/-- Modelled from the spec: `BandExtractor.extract` — every band present in
the product is reprojected onto the reference grid defined by the NIR band;
a missing band is skipped (MissingBandError is per-band and non-fatal), so
the returned BandSet may lack entries; without a NIR band the reference
grid is undefined and no BandSet is produced. -/
def extract (scene : Scene) : Option BandSet :=
  match lookupBand scene.rawBands .nir with
  | none => none
  | some nir =>
      some (bandList.filterMap (fun b =>
        (lookupBand scene.rawBands b).map
          (fun nb => (b, reprojectToGrid (referenceGrid scene nir) nb))))

/-- C6: grid invariant — any two rasters present in a BandSet returned by
`extract` share identical width, height, resolution and coordinate
reference system, also when the BandSet is missing some bands. -/
theorem extract_grid_invariant (scene : Scene) (bs : BandSet)
    (h : extract scene = some bs) :
    ∀ b1 r1 b2 r2, (b1, r1) ∈ bs → (b2, r2) ∈ bs →
      r1.grid.width = r2.grid.width ∧ r1.grid.height = r2.grid.height ∧
      r1.grid.resolution = r2.grid.resolution ∧
      r1.grid.crs = r2.grid.crs := by
  unfold extract at h
  cases hnir : lookupBand scene.rawBands .nir with
  | none => rw [hnir] at h; simp at h
  | some nir =>
      rw [hnir] at h
      simp only [Option.some.injEq] at h
      subst h
      have hmem : ∀ b r, (b, r) ∈ bandList.filterMap (fun b =>
          (lookupBand scene.rawBands b).map
            (fun nb => (b, reprojectToGrid (referenceGrid scene nir) nb))) →
          r.grid = referenceGrid scene nir := by
        intro b r hbr
        rcases List.mem_filterMap.mp hbr with ⟨b0, _, hb0⟩
        cases hlook : lookupBand scene.rawBands b0 with
        | none => rw [hlook] at hb0; simp at hb0
        | some nb =>
            rw [hlook] at hb0
            simp only [Option.map_some', Option.some.injEq, Prod.mk.injEq]
              at hb0
            rw [← hb0.2]
            rfl
      intro b1 r1 b2 r2 h1 h2
      rw [hmem b1 r1 h1, hmem b2 r2 h2]
      exact ⟨rfl, rfl, rfl, rfl⟩

/-- Witness for C6: a scene carrying only red (10 m), nir (10 m) and swir1
(20 m): the extracted BandSet is partial, and the red and swir1 rasters in
it share the 10 m NIR-defined grid. -/
theorem extract_grid_invariant_witness :
    (⟨⟨100, 200, 10, "EPSG:32722"⟩, "red.jp2"⟩ : Raster).grid.width =
      (⟨⟨100, 200, 10, "EPSG:32722"⟩, "swir1.jp2"⟩ : Raster).grid.width ∧
    (⟨⟨100, 200, 10, "EPSG:32722"⟩, "red.jp2"⟩ : Raster).grid.height =
      (⟨⟨100, 200, 10, "EPSG:32722"⟩, "swir1.jp2"⟩ : Raster).grid.height ∧
    (⟨⟨100, 200, 10, "EPSG:32722"⟩, "red.jp2"⟩ : Raster).grid.resolution =
      (⟨⟨100, 200, 10, "EPSG:32722"⟩, "swir1.jp2"⟩ : Raster).grid.resolution ∧
    (⟨⟨100, 200, 10, "EPSG:32722"⟩, "red.jp2"⟩ : Raster).grid.crs =
      (⟨⟨100, 200, 10, "EPSG:32722"⟩, "swir1.jp2"⟩ : Raster).grid.crs :=
  extract_grid_invariant
    ⟨"S2A_MSIL2A", "EPSG:32722", 100, 200,
      [(.nir, ⟨10, "nir.jp2"⟩), (.red, ⟨10, "red.jp2"⟩),
       (.swir1, ⟨20, "swir1.jp2"⟩)]⟩
    [(BandName.red, ⟨⟨100, 200, 10, "EPSG:32722"⟩, "red.jp2"⟩),
     (BandName.nir, ⟨⟨100, 200, 10, "EPSG:32722"⟩, "nir.jp2"⟩),
     (BandName.swir1, ⟨⟨100, 200, 10, "EPSG:32722"⟩, "swir1.jp2"⟩)]
    rfl
    BandName.red ⟨⟨100, 200, 10, "EPSG:32722"⟩, "red.jp2"⟩
    BandName.swir1 ⟨⟨100, 200, 10, "EPSG:32722"⟩, "swir1.jp2"⟩
    (by simp) (by simp)

/- ===== IndexEngine (modelled from the spec) ===== -/

/-- Modelled from the spec: an IndexDefinition — a named index formula with
the band names it requires (e.g. NDVI needs nir and red). -/
structure IndexDefinition where
  name : String
  requiredBands : List BandName
deriving DecidableEq, Repr

/-- Modelled from the spec: the static index registry — the indices the
pipeline computes (NDVI, NDWI, MSI, EVI, NDRE, NDMI, NDRE1-4, CI_REDEDGE,
SIPI per the project docs) with their required bands. -/
def indexRegistry : List IndexDefinition :=
  [⟨"ndvi", [.nir, .red]⟩,
   ⟨"ndwi", [.green, .nir]⟩,
   ⟨"msi", [.swir1, .nir]⟩,
   ⟨"evi", [.nir, .red, .blue]⟩,
   ⟨"ndre", [.nir, .rededge1]⟩,
   ⟨"ndmi", [.nir, .swir1]⟩,
   ⟨"ndre1", [.nir, .rededge1]⟩,
   ⟨"ndre2", [.nir, .rededge2]⟩,
   ⟨"ndre3", [.nir, .rededge3]⟩,
   ⟨"ndre4", [.nir, .rededge4]⟩,
   ⟨"ci_rededge", [.nir, .rededge1]⟩,
   ⟨"sipi", [.nir, .red, .blue]⟩]

/-- Whether a BandSet carries a band. -/
def hasBand (bs : BandSet) (b : BandName) : Bool :=
  bs.any (fun p => p.1 == b)

/-- The registered definition of an index name, if any. -/
def lookupIndexDef (nm : String) : Option IndexDefinition :=
  indexRegistry.find? (fun d => d.name == nm)

/-- Modelled from the spec: `IndexEngine.compute` — the manifest mapping
each requested index name to its artifact path or its per-index error: an
unregistered index, or one whose required bands are absent from the
BandSet, gets `UnsupportedIndexError` recorded and the batch continues with
the rest. -/
def compute (bs : BandSet) (names : List String) :
    List (String × Except String String) :=
  names.map (fun nm =>
    (nm, match lookupIndexDef nm with
      | none => .error "UnsupportedIndexError"
      | some d =>
          if d.requiredBands.all (fun b => hasBand bs b) then
            .ok (nm ++ ".tif")
          else .error "UnsupportedIndexError"))

/-- C7: per requested index, `compute` records `UnsupportedIndexError` for
every index with a required band absent from the BandSet and still
succeeds on every index whose required bands are all present; the manifest
carries an entry for every requested index, so one missing band never
aborts the batch. -/
theorem compute_partial_failure (bs : BandSet) (names : List String) :
    ((compute bs names).map Prod.fst = names) ∧
    (∀ nm d, nm ∈ names → lookupIndexDef nm = some d →
      ((∃ b ∈ d.requiredBands, hasBand bs b = false) →
        (nm, Except.error "UnsupportedIndexError") ∈ compute bs names) ∧
      ((∀ b ∈ d.requiredBands, hasBand bs b = true) →
        (nm, Except.ok (nm ++ ".tif")) ∈ compute bs names)) := by
  constructor
  · induction names with
    | nil => rfl
    | cons a t ih => simpa [compute] using ih
  · intro nm d hmem hlook
    constructor
    · rintro ⟨b, hb, hbf⟩
      have hall : d.requiredBands.all (fun b => hasBand bs b) = false := by
        rcases hx : d.requiredBands.all (fun b => hasBand bs b) with _ | _
        · rfl
        · rw [List.all_eq_true] at hx
          rw [hx b hb] at hbf
          exact absurd hbf (by simp)
      refine List.mem_map.mpr ⟨nm, hmem, ?_⟩
      simp [hlook, hall]
    · intro hall
      have hall' : d.requiredBands.all (fun b => hasBand bs b) = true :=
        List.all_eq_true.mpr hall
      refine List.mem_map.mpr ⟨nm, hmem, ?_⟩
      simp [hlook, hall']

/-- Witness for C7, Scenario C flavoured: a BandSet with nir and red but no
swir1, requested indices ndvi and msi: the manifest covers both requests,
marks msi failed with UnsupportedIndexError (swir1 absent) and still
produces ndvi. -/
theorem compute_partial_failure_witness :
    ((compute [(BandName.nir, ⟨⟨100, 200, 10, "EPSG:32722"⟩, "nir.jp2"⟩),
        (BandName.red, ⟨⟨100, 200, 10, "EPSG:32722"⟩, "red.jp2"⟩)]
        ["ndvi", "msi"]).map Prod.fst = ["ndvi", "msi"]) ∧
    ("msi", Except.error "UnsupportedIndexError") ∈
      compute [(BandName.nir, ⟨⟨100, 200, 10, "EPSG:32722"⟩, "nir.jp2"⟩),
        (BandName.red, ⟨⟨100, 200, 10, "EPSG:32722"⟩, "red.jp2"⟩)]
        ["ndvi", "msi"] ∧
    ("ndvi", Except.ok ("ndvi" ++ ".tif")) ∈
      compute [(BandName.nir, ⟨⟨100, 200, 10, "EPSG:32722"⟩, "nir.jp2"⟩),
        (BandName.red, ⟨⟨100, 200, 10, "EPSG:32722"⟩, "red.jp2"⟩)]
        ["ndvi", "msi"] :=
  ⟨(compute_partial_failure _ ["ndvi", "msi"]).1,
   ((compute_partial_failure _ ["ndvi", "msi"]).2 "msi" ⟨"msi",
      [.swir1, .nir]⟩ (by simp) rfl).1
     ⟨.swir1, by simp, rfl⟩,
   ((compute_partial_failure
      [(BandName.nir, ⟨⟨100, 200, 10, "EPSG:32722"⟩, "nir.jp2"⟩),
       (BandName.red, ⟨⟨100, 200, 10, "EPSG:32722"⟩, "red.jp2"⟩)]
      ["ndvi", "msi"]).2 "ndvi" ⟨"ndvi", [.nir, .red]⟩ (by simp) rfl).2
     (by decide)⟩
